import Mathlib

/-!
Shallow embedding of the live-query engine of pixl-server-unbase
(src/view.js, src/summary.js and the Subscriber class), together with
proofs of the specification's claims about it.

Modelling conventions:
* Record ids are `Nat` (the JS code carries them as strings; the view logic
  only compares them for equality and, for the natural `_id` sort with
  `sort_type == number`, by numeric value, so `Nat` is faithful).
* Sort values are `Int` (the numeric comparators in view.js).
* A JS object used as a map (`results`, `record_map`, `subs`) is embedded as
  an association list with unique keys; assignment overwrites in place or
  appends, `delete` removes the entry, iteration follows list order
  (JS objects preserve insertion order for such keys).
* Asynchronous storage calls (`searchRecords`, `sortRecords`, `getRecords`,
  `getFieldSummary`) are external collaborators; their outcome is passed in
  as an `Except`/`FetchResult` argument and the code's callback is the rest
  of the Lean function.
* An out-of-bounds indexing of a JS array followed by a property access
  (`sort_pairs[i][0]` with `i >= length`) throws a TypeError; that is
  modelled by `Option`, with `none` meaning the code throws.
-/

namespace Unbase

/-- Record identifiers. -/
abbrev RecordId := Nat

/-- Values produced by a sorter (view.js compares them numerically). -/
abbrev SortVal := Int

/-- Record bodies as returned by `unbase.getRecords`; opaque to the view. -/
abbrev Record := String

/-- One entry of `view.sort_pairs`: the JS array `[ record_id, sort_value ]`. -/
structure SortPair where
  id : RecordId
  val : SortVal
  deriving DecidableEq, Repr

/-- The ids of a `sort_pairs` list, in order. -/
def pairIds (pairs : List SortPair) : List RecordId :=
  pairs.map (fun p => p.id)

/-- `view.results` : a JS object mapping record id to sort position. -/
abbrev ResMap := List (RecordId × Nat)

/-- The keys of a `results` object, in insertion order. -/
def resKeys (m : ResMap) : List RecordId :=
  m.map (fun kv => kv.1)

/-- JS property read `m[k]` (for a map-like object). -/
def objGet : ResMap → RecordId → Option Nat
  | [], _ => none
  | (k', v') :: rest, k => if k' = k then some v' else objGet rest k

/-- JS assignment `m[k] = v`: overwrite in place, or append a new key. -/
def objSet : ResMap → RecordId → Nat → ResMap
  | [], k, v => [(k, v)]
  | (k', v') :: rest, k, v =>
      if k' = k then (k, v) :: rest else (k', v') :: objSet rest k v

/-- JS `delete m[k]`: drop the entry with key `k` (keys are unique). -/
def objDel : ResMap → RecordId → ResMap
  | [], _ => []
  | (k', v') :: rest, k => if k' = k then rest else (k', v') :: objDel rest k

/-- JS `m.hasOwnProperty(k)`. -/
def objHas (m : ResMap) (k : RecordId) : Bool :=
  (objGet m k).isSome

/-- The comparator view.js derives from `(sort_dir, numeric sort values)`:
`function(a, b) { return (a[1] - b[1]) * self.sort_dir; }`, read as a
total preorder (`cmp a b <= 0`). `sort_dir` is `1` or `-1`. -/
def pairLe (dir : Int) (a b : SortPair) : Bool :=
  if 0 ≤ dir then a.val ≤ b.val else b.val ≤ a.val

/-- The loop bodies of `View.notifyChange`, `View.notifyVisible` and
`Subscriber.notifyChange`:
`for (idx = 0, len = Math.min(limit, sort_pairs.length); idx < len; idx++)
   use( sort_pairs[idx + offset][0] )`.
Returns `none` when the loop dereferences past the end of the array
(JS: `undefined[0]`, a thrown TypeError). -/
def codeWindowIds (pairs : List SortPair) (offset limit : Nat) :
    Option (List RecordId) :=
  (List.range (min limit pairs.length)).mapM
    (fun idx => (pairs.get? (idx + offset)).map (fun p => p.id))

/-- The slice the specification prescribes for a subscriber window:
`sort_pairs[offset : min(offset+limit, len)]`. -/
def specWindowIds (pairs : List SortPair) (offset limit : Nat) :
    List RecordId :=
  ((pairs.drop offset).take limit).map (fun p => p.id)

/-- The in-RAM search state of a View: `this.results` and `this.sort_pairs`. -/
structure ViewState where
  results : ResMap
  sort_pairs : List SortPair
  deriving DecidableEq, Repr

/-- Which notification a view update triggers: none, `notifyChange` to all
subscribers, or `notifyVisible record_idx`. -/
inductive Notify where
  | nothing
  | all
  | visible (record_idx : Nat)
  deriving DecidableEq, Repr

/-- The loop in `resortAndNotify` / the initial-search `finish` callback:
`for (idx = 0; idx < sort_pairs.length; idx++) results[ pair[0] ] = idx`,
started at index `i`. -/
def storeSortPositions (res : ResMap) : List SortPair → Nat → ResMap
  | [], _ => res
  | p :: rest, i => storeSortPositions (objSet res p.id i) rest (i + 1)

/-- `View.resortAndNotify`: sort `sort_pairs` by the comparator, rewrite the
positions stored in `results`, then `notifyChange` (notify all subs). -/
def resortAndNotify (dir : Int) (st : ViewState) : ViewState × Notify :=
  let sorted := st.sort_pairs.mergeSort (pairLe dir)
  ({ results := storeSortPositions st.results sorted 0, sort_pairs := sorted },
   Notify.all)

/-- The slice of `state.idx_data` the view reads: `_sorters[this.sort_by]`. -/
structure IdxData where
  sorterVal : SortVal
  deriving DecidableEq, Repr

/-- `state.action` of a write state handed to `View.update`. -/
inductive WriteAction where
  | insert
  | delete
  deriving DecidableEq, Repr

/-- The write state `{ action, idx_data, id, new_record, changed }` produced
by the indexer (the fields `View.update` reads). -/
structure WriteState where
  action : WriteAction
  id : RecordId
  idx_data : IdxData
  deriving DecidableEq, Repr

/-- The per-view configuration `View.update` consults: whether
`sort_by == '_id'`, the sort direction, and the query predicate
`storage._searchSingle(this.query, id, idx_data, this.index)` (an external
collaborator, §6 of the spec), given as the membership test `hit`. -/
structure ViewCfg where
  sort_by_id : Bool
  dir : Int
  hit : RecordId → IdxData → Bool

/-- The sort value stored for a record:
`(this.sort_by == '_id') ? record_id : state.idx_data._sorters[this.sort_by]`. -/
def sortValueOf (cfg : ViewCfg) (id : RecordId) (d : IdxData) : SortVal :=
  if cfg.sort_by_id then (id : Int) else d.sorterVal

/-- `View.addRecord`: `results[id] = 1; sort_pairs.push([id, sort_value]);
resortAndNotify()`. -/
def addRecord (cfg : ViewCfg) (st : ViewState) (w : WriteState) :
    ViewState × Notify :=
  resortAndNotify cfg.dir
    { results := objSet st.results w.id 1,
      sort_pairs := st.sort_pairs ++ [⟨w.id, sortValueOf cfg w.id w.idx_data⟩] }

/-- `View.removeRecord`: `sort_idx = results[id]; delete results[id];
sort_pairs.splice(sort_idx, 1); resortAndNotify()`.
(JS `splice(undefined, 1)` coerces to index 0, hence `getD 0`; the method is
only reached when the id is present.) -/
def removeRecord (cfg : ViewCfg) (st : ViewState) (w : WriteState) :
    ViewState × Notify :=
  resortAndNotify cfg.dir
    { results := objDel st.results w.id,
      sort_pairs := st.sort_pairs.eraseIdx ((objGet st.results w.id).getD 0) }

/-- `sort_pairs[i][1] = v`: overwrite the sort value at position `i`. -/
def setPairVal : List SortPair → Nat → SortVal → List SortPair
  | [], _, _ => []
  | p :: rest, 0, v => ⟨p.id, v⟩ :: rest
  | p :: rest, i + 1, v => p :: setPairVal rest i v

/-- `View.update(state)`: the incremental update dispatch of view.js,
returning the new `(results, sort_pairs)` state and which notification the
branch issues. -/
def updateView (cfg : ViewCfg) (st : ViewState) (w : WriteState) :
    ViewState × Notify :=
  match w.action with
  | WriteAction.insert =>
      let old_hit := objHas st.results w.id
      let new_hit := cfg.hit w.id w.idx_data
      if !old_hit && new_hit then
        addRecord cfg st w
      else if old_hit && !new_hit then
        removeRecord cfg st w
      else if old_hit && new_hit && !cfg.sort_by_id then
        let idx := (objGet st.results w.id).getD 0
        let old_sort_value := ((st.sort_pairs.get? idx).map (fun p => p.val)).getD 0
        let new_sort_value := w.idx_data.sorterVal
        if new_sort_value ≠ old_sort_value then
          resortAndNotify cfg.dir
            { results := st.results,
              sort_pairs := setPairVal st.sort_pairs idx new_sort_value }
        else
          (st, Notify.visible idx)
      else if old_hit && new_hit then
        (st, Notify.visible ((objGet st.results w.id).getD 0))
      else
        (st, Notify.nothing)
  | WriteAction.delete =>
      if objHas st.results w.id then
        removeRecord cfg st w
      else
        (st, Notify.nothing)

/-- The `finish` callback of the initial search when `sort_by == '_id'`:
build `sort_pairs` as `[id, id]` from the keys of the search-result hash,
sort them, then write the positions back into `results`.
`results0` is the hash returned by `searchRecords` (values are scores). -/
def searchFinishById (dir : Int) (results0 : ResMap) : ViewState :=
  let sort_pairs :=
    (results0.map (fun kv => SortPair.mk kv.1 (kv.1 : Int))).mergeSort (pairLe dir)
  { results := storeSortPositions results0 sort_pairs 0,
    sort_pairs := sort_pairs }

/-- The `finish` callback when a sorter is used: `sort_pairs` comes from the
external `storage.sortRecords`; the view stores the positions back. -/
def searchFinishSorted (results0 : ResMap) (pairs : List SortPair) : ViewState :=
  { results := storeSortPositions results0 pairs 0, sort_pairs := pairs }

/-- A subscriber's window as the view sees it: `sub.id`, `sub.offset`,
`sub.limit`. -/
structure Sub where
  id : Nat
  offset : Nat
  limit : Nat
  deriving DecidableEq, Repr

/-- Events a subscriber can emit towards its client. -/
inductive SubEvent where
  | change (records : List Record) (total : Nat)
  | error (msg : String)
  | destroy
  deriving DecidableEq, Repr

/-- Outcome of the asynchronous bulk load `unbase.getRecords(key, ids, cb)`:
on success the store returns the body of each requested id, in order. -/
inductive FetchResult where
  | ok (store : RecordId → Record)
  | err (msg : String)

/-- `View.notifyChange`: build the union `record_map` over every
subscriber's window, bulk-load it, then hand each subscriber its own window
slice with `total = sort_pairs.length`.  A fetch error is only logged.
`none` models the TypeError thrown when a window loop reads past the end of
`sort_pairs`. -/
def viewNotifyChange (fetch : FetchResult) (subs : List Sub)
    (pairs : List SortPair) : Option (List (Nat × SubEvent)) :=
  if subs.isEmpty then some [] else
  match subs.mapM (fun sub => codeWindowIds pairs sub.offset sub.limit) with
  | none => none
  | some _ =>
      match fetch with
      | FetchResult.err _ => some []
      | FetchResult.ok store =>
          subs.mapM (fun sub =>
            (codeWindowIds pairs sub.offset sub.limit).map (fun ids =>
              (sub.id, SubEvent.change (ids.map store) pairs.length)))

/-- The window test of `View.notifyVisible`:
`(record_idx >= sub.offset) && (record_idx < sub.offset + sub.limit)`. -/
def subSeesIdx (sub : Sub) (record_idx : Nat) : Bool :=
  (sub.offset ≤ record_idx) && (record_idx < sub.offset + sub.limit)

/-- `View.notifyVisible(record_idx)`: like `notifyChange` but only for the
subscribers whose window contains `record_idx`. -/
def viewNotifyVisible (fetch : FetchResult) (subs : List Sub)
    (pairs : List SortPair) (record_idx : Nat) :
    Option (List (Nat × SubEvent)) :=
  if subs.isEmpty then some [] else
  let chosen := subs.filter (fun sub => subSeesIdx sub record_idx)
  if chosen.isEmpty then some [] else
  match chosen.mapM (fun sub => codeWindowIds pairs sub.offset sub.limit) with
  | none => none
  | some _ =>
      match fetch with
      | FetchResult.err _ => some []
      | FetchResult.ok store =>
          chosen.mapM (fun sub =>
            (codeWindowIds pairs sub.offset sub.limit).map (fun ids =>
              (sub.id, SubEvent.change (ids.map store) pairs.length)))

/-- `Subscriber.notifyChange` (subscriber class): regenerate this
subscriber's own window, load it, and emit `change`; a fetch error is
logged and emitted as an `error` event on this subscriber only. -/
def subNotifyChange (fetch : FetchResult) (pairs : List SortPair)
    (offset limit : Nat) : Option (List SubEvent) :=
  (codeWindowIds pairs offset limit).map (fun sorted_ids =>
    match fetch with
    | FetchResult.err e => [SubEvent.error ("Failed to fetch records: " ++ e)]
    | FetchResult.ok store =>
        [SubEvent.change (sorted_ids.map store) pairs.length])

/-- A listener on the subscriber's `error` channel: the no-op default
(`this.on('error', noop)` in the constructor) or a client handler. -/
inductive Handler where
  | noop
  | client (id : Nat)
  deriving DecidableEq, Repr

/-- The `error` listener list of a Subscriber emitter. -/
structure SubEmitter where
  errorListeners : List Handler
  deriving DecidableEq, Repr

/-- `Subscriber.__construct`: attaches the no-op default error listener. -/
def subscriberConstruct : SubEmitter :=
  { errorListeners := [Handler.noop] }

/-- Client code attaching further `error` listeners after construction. -/
def addErrorListeners (s : SubEmitter) (hs : List Handler) : SubEmitter :=
  { errorListeners := s.errorListeners ++ hs }

/-- Emitting `error`: in node, an `error` emission with an empty listener
list throws and kills the process; with at least one listener it is
delivered (absorbed by `noop`). Returns `true` when absorbed. -/
def emitErrorAbsorbed (s : SubEmitter) : Bool :=
  !s.errorListeners.isEmpty

/-- A View as the subscriber-management code sees it: its subscriber set
(`this.subs`, keyed by sub id) and its search state, `none` until the
initial search has stored `sort_pairs` (`this.sort_pairs` is `null` before;
a JS array, even empty, is truthy). -/
structure ViewHandle where
  subs : List Nat
  vstate : Option ViewState
  deriving DecidableEq, Repr

/-- `this.subs[ sub.id ] = sub`. -/
def addSubKey (subs : List Nat) (sid : Nat) : List Nat :=
  if sid ∈ subs then subs else subs ++ [sid]

/-- `View.addSubscriber(sub)`: register the subscriber; if the initial
search has already completed (`this.sort_pairs` non-null), fire off that
subscriber's `notifyChange` immediately.  The Bool reports whether the
immediate per-subscriber notification happened. -/
def addSubscriber (v : ViewHandle) (sid : Nat) : ViewHandle × Bool :=
  ({ v with subs := addSubKey v.subs sid }, v.vstate.isSome)

/-- `View.removeSubscriber(sub)` (and `Subscriber.unsubscribe`, which just
calls it): delete the subscriber; if none remain, destroy the view, which
broadcasts `destroy` to the remaining subscribers and deregisters the view
from the ViewManager (`unbase.removeView`). Returns the new handle, the
events emitted, and whether the view was destroyed/deregistered. -/
def removeSubscriber (v : ViewHandle) (sid : Nat) :
    ViewHandle × List (Nat × SubEvent) × Bool :=
  let subs' := v.subs.erase sid
  if subs'.isEmpty then
    ({ v with subs := subs' }, subs'.map (fun k => (k, SubEvent.destroy)), true)
  else
    ({ v with subs := subs' }, [], false)

/-- Result of running `View.search` (the initial search): the stored state
if it succeeded, the events broadcast to subscribers, the notification the
success path issues, and whether the view deregistered itself. -/
structure SearchResult where
  state : Option ViewState
  events : List (Nat × SubEvent)
  notify : Notify
  removed : Bool
  deriving Repr

/-- `broadcast(name, thingy)`: emit an event to every subscriber. -/
def broadcastTo (subs : List Nat) (e : SubEvent) : List (Nat × SubEvent) :=
  subs.map (fun k => (k, e))

/-- `View.search`: call the external `searchRecords`; on error broadcast
`error` and destroy (broadcast `destroy`, deregister).  Otherwise build
`sort_pairs` locally for the `_id` sort or via the external `sortRecords`
(whose failure takes the same error path through `finish`), store the
state, and notify all subscribers. -/
def runSearch (dir : Int) (sort_by_id : Bool) (subs : List Nat)
    (searchRes : Except String ResMap)
    (sortRes : ResMap → Except String (List SortPair)) : SearchResult :=
  match searchRes with
  | Except.error e =>
      { state := none,
        events := broadcastTo subs (SubEvent.error ("Initial search failed: " ++ e))
          ++ broadcastTo subs SubEvent.destroy,
        notify := Notify.nothing,
        removed := true }
  | Except.ok results0 =>
      if sort_by_id then
        { state := some (searchFinishById dir results0), events := [],
          notify := Notify.all, removed := false }
      else
        match sortRes results0 with
        | Except.error e =>
            { state := none,
              events := broadcastTo subs (SubEvent.error ("Initial search failed: " ++ e))
                ++ broadcastTo subs SubEvent.destroy,
              notify := Notify.nothing,
              removed := true }
        | Except.ok pairs =>
            { state := some (searchFinishSorted results0 pairs), events := [],
              notify := Notify.all, removed := false }

/-- Field identifiers of the index schema. -/
abbrev FieldId := Nat

/-- A field summary: the map value → count from `getFieldSummary`. -/
abbrev Values := List (String × Nat)

/-- The write-state fields `SummaryView.update` reads: `action`,
`new_record`, and `changed` (absent on delete states, hence `Option`;
`state.changed[f]` is truthy exactly when `f` is in the set). -/
structure SumWriteState where
  action : WriteAction
  new_record : Bool
  changed : Option (List FieldId)
  deriving DecidableEq, Repr

/-- A summary-view event towards a subscriber. -/
inductive SumEvent where
  | change (values : Values)
  deriving DecidableEq, Repr

/-- The cached `this.values` of a SummaryView (`null` until first load). -/
structure SummaryState where
  values : Option Values
  deriving DecidableEq, Repr

/-- `SummaryView.notifyChange`: reload the summary via the external
`storage.getFieldSummary`; on error only log (cache and subscribers
untouched); on success cache `values` and broadcast `change {values}` to
all subscribers. -/
def summaryNotifyChange (fetch : Except String Values) (st : SummaryState)
    (subs : List Nat) : SummaryState × List (Nat × SumEvent) :=
  match fetch with
  | Except.error _ => (st, [])
  | Except.ok vs =>
      ({ values := some vs }, subs.map (fun k => (k, SumEvent.change vs)))

/-- The guarded truthiness test `state.changed && state.changed[field_id]`. -/
def changedHasField (changed : Option (List FieldId)) (f : FieldId) : Bool :=
  match changed with
  | none => false
  | some l => l.contains f

/-- `SummaryView.update(state)`: recompute and broadcast when the record is
new or deleted, or when the tracked field changed. -/
def summaryUpdate (field_id : FieldId) (fetch : Except String Values)
    (st : SummaryState) (subs : List Nat) (w : SumWriteState) :
    SummaryState × List (Nat × SumEvent) :=
  if w.new_record || (w.action == WriteAction.delete) then
    summaryNotifyChange fetch st subs
  else if changedHasField w.changed field_id then
    summaryNotifyChange fetch st subs
  else
    (st, [])

/-- The between-updates invariant of a View (§3 of the spec):
`sort_pairs` is sorted under the comparator, every pair's position is stored
in `results`, the two containers have the same size, and neither contains
duplicates. -/
def viewInv (dir : Int) (st : ViewState) : Prop :=
  List.Pairwise (fun a b => pairLe dir a b = true) st.sort_pairs ∧
  (∀ i : Fin st.sort_pairs.length,
    objGet st.results (st.sort_pairs.get i).id = some i.val) ∧
  st.results.length = st.sort_pairs.length ∧
  (pairIds st.sort_pairs).Nodup ∧
  (resKeys st.results).Nodup

theorem pairIds_cons (p : SortPair) (rest : List SortPair) :
    pairIds (p :: rest) = p.id :: pairIds rest := rfl

theorem resKeys_cons (kv : RecordId × Nat) (rest : ResMap) :
    resKeys (kv :: rest) = kv.1 :: resKeys rest := rfl

theorem objGet_objSet_self (m : ResMap) (k : RecordId) (v : Nat) :
    objGet (objSet m k v) k = some v := by
  induction m with
  | nil => simp [objSet, objGet]
  | cons kv rest ih =>
      obtain ⟨a, b⟩ := kv
      by_cases h : a = k
      · simp [objSet, objGet, h]
      · simp [objSet, objGet, h, ih]

theorem objGet_objSet_ne (m : ResMap) {k k' : RecordId} (v : Nat)
    (h : k' ≠ k) : objGet (objSet m k v) k' = objGet m k' := by
  have h' : ¬ k = k' := fun hh => h hh.symm
  induction m with
  | nil => simp [objSet, objGet, h']
  | cons kv rest ih =>
      obtain ⟨a, b⟩ := kv
      by_cases hk : a = k
      · subst hk
        simp [objSet, objGet, h']
      · simp [objSet, objGet, hk, ih]

theorem objGet_isSome_iff_mem (m : ResMap) (k : RecordId) :
    (objGet m k).isSome = true ↔ k ∈ resKeys m := by
  induction m with
  | nil => simp [objGet, resKeys]
  | cons kv rest ih =>
      obtain ⟨a, b⟩ := kv
      rw [resKeys_cons, List.mem_cons]
      by_cases h : a = k
      · simp [objGet, h]
      · have h' : ¬ k = a := fun hh => h hh.symm
        simp only [objGet, if_neg h]
        rw [ih]
        simp [h']

theorem resKeys_objSet_of_mem (m : ResMap) {k : RecordId} (v : Nat)
    (h : k ∈ resKeys m) : resKeys (objSet m k v) = resKeys m := by
  induction m with
  | nil => simp [resKeys] at h
  | cons kv rest ih =>
      obtain ⟨a, b⟩ := kv
      by_cases hk : a = k
      · simp [objSet, resKeys_cons, hk]
      · have hmem : k ∈ resKeys rest := by
          rw [resKeys_cons, List.mem_cons] at h
          rcases h with h1 | h2
          · exact absurd h1.symm hk
          · exact h2
        simp only [objSet, if_neg hk, resKeys_cons]
        rw [ih hmem]

theorem resKeys_objSet_of_not_mem (m : ResMap) {k : RecordId} (v : Nat)
    (h : k ∉ resKeys m) : resKeys (objSet m k v) = resKeys m ++ [k] := by
  induction m with
  | nil => simp [objSet, resKeys]
  | cons kv rest ih =>
      obtain ⟨a, b⟩ := kv
      have hk : ¬ a = k := by
        intro hh
        exact h (by rw [resKeys_cons, List.mem_cons]; exact Or.inl hh.symm)
      have hrest : k ∉ resKeys rest := by
        intro hh
        exact h (by rw [resKeys_cons, List.mem_cons]; exact Or.inr hh)
      simp only [objSet, if_neg hk, resKeys_cons]
      rw [ih hrest]
      rfl

theorem resKeys_objDel (m : ResMap) (k : RecordId) :
    resKeys (objDel m k) = (resKeys m).erase k := by
  induction m with
  | nil => simp [objDel, resKeys]
  | cons kv rest ih =>
      obtain ⟨a, b⟩ := kv
      by_cases h : a = k
      · subst h
        simp [objDel, resKeys_cons, List.erase_cons_head]
      · have hb : ¬ (a == k) = true := by simpa using h
        simp only [objDel, if_neg h, resKeys_cons, List.erase_cons, hb]
        rw [ih]
        simp [hb]

theorem objGet_storeSortPositions_of_not_mem (pairs : List SortPair)
    (res : ResMap) (n : Nat) {k : RecordId} (h : k ∉ pairIds pairs) :
    objGet (storeSortPositions res pairs n) k = objGet res k := by
  induction pairs generalizing res n with
  | nil => simp [storeSortPositions]
  | cons p rest ih =>
      have hp : k ≠ p.id := by
        intro hh
        exact h (by rw [pairIds_cons, List.mem_cons]; exact Or.inl hh)
      have hrest : k ∉ pairIds rest := by
        intro hh
        exact h (by rw [pairIds_cons, List.mem_cons]; exact Or.inr hh)
      rw [storeSortPositions, ih _ _ hrest, objGet_objSet_ne _ _ hp]

theorem resKeys_storeSortPositions (pairs : List SortPair) (res : ResMap)
    (n : Nat) (h : ∀ k ∈ pairIds pairs, k ∈ resKeys res) :
    resKeys (storeSortPositions res pairs n) = resKeys res := by
  induction pairs generalizing res n with
  | nil => simp [storeSortPositions]
  | cons p rest ih =>
      have hp : p.id ∈ resKeys res :=
        h p.id (by rw [pairIds_cons]; exact List.mem_cons_self _ _)
      have hkeys : resKeys (objSet res p.id n) = resKeys res :=
        resKeys_objSet_of_mem res n hp
      rw [storeSortPositions, ih _ _ (fun k hk => by
        rw [hkeys]
        exact h k (by rw [pairIds_cons, List.mem_cons]; exact Or.inr hk))]
      exact hkeys

theorem objGet_storeSortPositions_get (pairs : List SortPair) (res : ResMap)
    (n : Nat) (hnd : (pairIds pairs).Nodup) (i : Fin pairs.length) :
    objGet (storeSortPositions res pairs n) (pairs.get i).id
      = some (n + i.val) := by
  induction pairs generalizing res n with
  | nil => exact absurd i.isLt (by simp)
  | cons p rest ih =>
      have hnd2 : (p.id :: pairIds rest).Nodup := by
        rw [← pairIds_cons]; exact hnd
      have hfresh : p.id ∉ pairIds rest := (List.nodup_cons.mp hnd2).1
      have hnd' : (pairIds rest).Nodup := (List.nodup_cons.mp hnd2).2
      rcases i with ⟨iv, hi⟩
      cases iv with
      | zero =>
          rw [storeSortPositions]
          have h1 := objGet_storeSortPositions_of_not_mem rest
            (objSet res p.id n) (n + 1) hfresh
          simpa using h1.trans (objGet_objSet_self res p.id n)
      | succ j =>
          have hj : j < rest.length := by
            simpa using Nat.lt_of_succ_lt_succ hi
          have hrec := ih (objSet res p.id n) (n + 1) hnd' ⟨j, hj⟩
          rw [storeSortPositions]
          simpa [Nat.add_assoc, Nat.add_comm 1 j] using hrec

theorem length_storeSortPositions (pairs : List SortPair) (res : ResMap)
    (n : Nat) (h : ∀ k ∈ pairIds pairs, k ∈ resKeys res) :
    (storeSortPositions res pairs n).length = res.length := by
  have hk := resKeys_storeSortPositions pairs res n h
  have h1 : (resKeys (storeSortPositions res pairs n)).length
      = (resKeys res).length := by rw [hk]
  simpa [resKeys] using h1

theorem pairLe_trans (dir : Int) (a b c : SortPair)
    (h1 : pairLe dir a b = true) (h2 : pairLe dir b c = true) :
    pairLe dir a c = true := by
  unfold pairLe at *
  by_cases hd : 0 ≤ dir
  · simp only [if_pos hd] at *
    exact decide_eq_true (le_trans (of_decide_eq_true h1) (of_decide_eq_true h2))
  · simp only [if_neg hd] at *
    exact decide_eq_true (le_trans (of_decide_eq_true h2) (of_decide_eq_true h1))

theorem pairLe_total (dir : Int) (a b : SortPair) :
    (pairLe dir a b || pairLe dir b a) = true := by
  unfold pairLe
  by_cases hd : 0 ≤ dir
  · simp only [if_pos hd]
    rcases le_total a.val b.val with h | h
    · simp [h]
    · simp [h]
  · simp only [if_neg hd]
    rcases le_total a.val b.val with h | h
    · simp [h]
    · simp [h]

theorem length_resKeys (m : ResMap) : (resKeys m).length = m.length := by
  simp [resKeys]

theorem pairIds_length (pairs : List SortPair) :
    (pairIds pairs).length = pairs.length := by
  simp [pairIds]

theorem pairIds_append (l1 l2 : List SortPair) :
    pairIds (l1 ++ l2) = pairIds l1 ++ pairIds l2 := by
  simp [pairIds]

theorem pairIds_eraseIdx (l : List SortPair) (i : Nat) :
    pairIds (l.eraseIdx i) = (pairIds l).eraseIdx i := by
  induction l generalizing i with
  | nil => simp [pairIds]
  | cons p rest ih =>
      cases i with
      | zero => simp [pairIds]
      | succ j =>
          simp only [List.eraseIdx, pairIds_cons, ih]
          rfl

theorem pairIds_setPairVal (l : List SortPair) (i : Nat) (v : SortVal) :
    pairIds (setPairVal l i v) = pairIds l := by
  induction l generalizing i with
  | nil => simp [setPairVal]
  | cons p rest ih =>
      cases i with
      | zero => simp [setPairVal, pairIds_cons]
      | succ j => simp [setPairVal, pairIds_cons, ih]

theorem eraseIdx_eq_erase_of_nodup {α : Type} [DecidableEq α]
    (l : List α) (hnd : l.Nodup) (i : Fin l.length) :
    l.eraseIdx i.val = l.erase (l.get i) := by
  induction l with
  | nil => exact absurd i.isLt (by simp)
  | cons a rest ih =>
      rcases i with ⟨iv, hi⟩
      cases iv with
      | zero => simp [List.eraseIdx]
      | succ j =>
          have hj : j < rest.length := by
            simpa using Nat.lt_of_succ_lt_succ hi
          have ha : a ∉ rest := (List.nodup_cons.mp hnd).1
          have hget : rest.get ⟨j, hj⟩ ∈ rest := rest.get_mem _ _
          have hne : ¬ (a == rest.get ⟨j, hj⟩) = true := by
            simp only [beq_iff_eq]
            intro hh
            exact ha (hh ▸ hget)
          simp only [List.eraseIdx, List.get_cons_succ, List.erase_cons, hne,
            if_false]
          rw [ih (List.nodup_cons.mp hnd).2 ⟨j, hj⟩]
          simp

theorem searchFinishSorted_inv (dir : Int) (res : ResMap)
    (pairs : List SortPair)
    (hsorted : List.Pairwise (fun a b => pairLe dir a b = true) pairs)
    (hknd : (resKeys res).Nodup) (hind : (pairIds pairs).Nodup)
    (hperm : (resKeys res).Perm (pairIds pairs)) :
    viewInv dir (searchFinishSorted res pairs) := by
  have hsub : ∀ k ∈ pairIds pairs, k ∈ resKeys res :=
    fun k hk => hperm.mem_iff.mpr hk
  refine ⟨hsorted, ?_, ?_, hind, ?_⟩
  · intro i
    have := objGet_storeSortPositions_get pairs res 0 hind i
    simpa [searchFinishSorted] using this
  · have h1 : (searchFinishSorted res pairs).results.length = res.length :=
      length_storeSortPositions pairs res 0 hsub
    have h2 : res.length = (resKeys res).length := (length_resKeys res).symm
    have h3 : (resKeys res).length = (pairIds pairs).length := hperm.length_eq
    have h4 : (pairIds pairs).length = pairs.length := pairIds_length pairs
    simp only [searchFinishSorted] at h1 ⊢
    omega
  · have h1 : resKeys (storeSortPositions res pairs 0) = resKeys res :=
      resKeys_storeSortPositions pairs res 0 hsub
    simpa [searchFinishSorted, h1] using hknd

theorem resort_inv (dir : Int) (res : ResMap) (pairs : List SortPair)
    (hknd : (resKeys res).Nodup) (hind : (pairIds pairs).Nodup)
    (hperm : (resKeys res).Perm (pairIds pairs)) :
    viewInv dir (resortAndNotify dir ⟨res, pairs⟩).1 := by
  have hidsperm : (pairIds (pairs.mergeSort (pairLe dir))).Perm (pairIds pairs) := by
    unfold pairIds
    exact (List.mergeSort_perm pairs (pairLe dir)).map (fun p => p.id)
  have hres : (resortAndNotify dir ⟨res, pairs⟩).1
      = searchFinishSorted res (pairs.mergeSort (pairLe dir)) := rfl
  rw [hres]
  exact searchFinishSorted_inv dir res _
    (List.sorted_mergeSort (pairLe_trans dir) (pairLe_total dir) pairs)
    hknd (hidsperm.nodup_iff.mpr hind) (hperm.trans hidsperm.symm)

theorem viewInv_keys_perm (dir : Int) (st : ViewState) (h : viewInv dir st) :
    (resKeys st.results).Perm (pairIds st.sort_pairs) := by
  obtain ⟨-, hpos, hlen, hind, hknd⟩ := h
  have hsub : pairIds st.sort_pairs ⊆ resKeys st.results := by
    intro k hk
    obtain ⟨p, hp, hpk⟩ := List.mem_map.mp hk
    obtain ⟨i, hi⟩ := List.mem_iff_get.mp hp
    have := hpos i
    rw [hi, hpk] at this
    exact (objGet_isSome_iff_mem st.results k).mp (by simp [this])
  have hlen2 : (resKeys st.results).length ≤ (pairIds st.sort_pairs).length := by
    rw [length_resKeys, pairIds_length]
    omega
  exact ((List.subperm_of_subset hind hsub).perm_of_length_le hlen2).symm

theorem viewInv_addRecord (cfg : ViewCfg) (st : ViewState) (w : WriteState)
    (h : viewInv cfg.dir st) (hmiss : objHas st.results w.id = false) :
    viewInv cfg.dir (addRecord cfg st w).1 := by
  have hperm := viewInv_keys_perm cfg.dir st h
  obtain ⟨-, -, -, hind, hknd⟩ := h
  have hnotkey : w.id ∉ resKeys st.results := by
    intro hmem
    have := (objGet_isSome_iff_mem st.results w.id).mpr hmem
    simp [objHas, this] at hmiss
  have hnotid : w.id ∉ pairIds st.sort_pairs :=
    fun hmem => hnotkey (hperm.mem_iff.mpr hmem)
  have hkeys : resKeys (objSet st.results w.id 1)
      = resKeys st.results ++ [w.id] :=
    resKeys_objSet_of_not_mem st.results 1 hnotkey
  have hids : pairIds (st.sort_pairs
        ++ [⟨w.id, sortValueOf cfg w.id w.idx_data⟩])
      = pairIds st.sort_pairs ++ [w.id] := by
    rw [pairIds_append]
    rfl
  refine resort_inv cfg.dir _ _ ?_ ?_ ?_
  · rw [hkeys]
    simp only [List.nodup_append, List.nodup_cons, List.not_mem_nil,
      not_false_iff, List.nodup_nil, and_true, true_and]
    constructor
    · exact hknd
    · intro a ha hb
      simp only [List.mem_singleton] at hb
      exact hnotkey (hb ▸ ha)
  · rw [hids]
    simp only [List.nodup_append, List.nodup_cons, List.not_mem_nil,
      not_false_iff, List.nodup_nil, and_true, true_and]
    constructor
    · exact hind
    · intro a ha hb
      simp only [List.mem_singleton] at hb
      exact hnotid (hb ▸ ha)
  · rw [hkeys, hids]
    exact hperm.append_right [w.id]

theorem viewInv_removeRecord (cfg : ViewCfg) (st : ViewState) (w : WriteState)
    (h : viewInv cfg.dir st) (hhit : objHas st.results w.id = true) :
    viewInv cfg.dir (removeRecord cfg st w).1 := by
  have hperm := viewInv_keys_perm cfg.dir st h
  obtain ⟨-, hpos, -, hind, hknd⟩ := h
  have hmemk : w.id ∈ resKeys st.results :=
    (objGet_isSome_iff_mem _ _).mp (by simpa [objHas] using hhit)
  have hmemi : w.id ∈ pairIds st.sort_pairs := hperm.mem_iff.mp hmemk
  obtain ⟨p, hp, hpk⟩ := List.mem_map.mp hmemi
  obtain ⟨i, hi⟩ := List.mem_iff_get.mp hp
  have hposi := hpos i
  rw [hi, hpk] at hposi
  have hgetd : (objGet st.results w.id).getD 0 = i.val := by
    rw [hposi]
    rfl
  have hlen' : i.val < (pairIds st.sort_pairs).length := by
    rw [pairIds_length]
    exact i.isLt
  have hgetid : (pairIds st.sort_pairs).get ⟨i.val, hlen'⟩ = w.id := by
    show (pairIds st.sort_pairs)[i.val] = w.id
    have h1 : (pairIds st.sort_pairs)[i.val]
        = (st.sort_pairs[i.val]).id := by
      simp [pairIds]
    rw [h1]
    have h2 : st.sort_pairs[i.val] = st.sort_pairs.get i := by
      simp
    rw [h2, hi, hpk]
  have hidserase : pairIds (st.sort_pairs.eraseIdx i.val)
      = (pairIds st.sort_pairs).erase w.id := by
    rw [pairIds_eraseIdx,
      eraseIdx_eq_erase_of_nodup (pairIds st.sort_pairs) hind ⟨i.val, hlen'⟩,
      hgetid]
  have hkeyserase : resKeys (objDel st.results w.id)
      = (resKeys st.results).erase w.id := resKeys_objDel st.results w.id
  have hres := resort_inv cfg.dir (objDel st.results w.id)
    (st.sort_pairs.eraseIdx i.val)
    (by rw [hkeyserase]; exact hknd.erase w.id)
    (by rw [hidserase]; exact hind.erase w.id)
    (by rw [hkeyserase, hidserase]; exact hperm.erase w.id)
  simpa [removeRecord, hgetd] using hres

theorem viewInv_updateView (cfg : ViewCfg) (st : ViewState) (w : WriteState)
    (h : viewInv cfg.dir st) : viewInv cfg.dir (updateView cfg st w).1 := by
  have hperm := viewInv_keys_perm cfg.dir st h
  cases ha : w.action with
  | insert =>
      cases hold : objHas st.results w.id with
      | false =>
          cases hnew : cfg.hit w.id w.idx_data with
          | false =>
              simpa [updateView, ha, hold, hnew] using h
          | true =>
              simpa [updateView, ha, hold, hnew] using
                viewInv_addRecord cfg st w h hold
      | true =>
          cases hnew : cfg.hit w.id w.idx_data with
          | false =>
              simpa [updateView, ha, hold, hnew] using
                viewInv_removeRecord cfg st w h hold
          | true =>
              cases hsbi : cfg.sort_by_id with
              | true =>
                  simpa [updateView, ha, hold, hnew, hsbi] using h
              | false =>
                  by_cases hv : w.idx_data.sorterVal
                      = (Option.map (fun p => p.val)
                          st.sort_pairs[(objGet st.results w.id).getD 0]?).getD 0
                  · simpa [updateView, ha, hold, hnew, hsbi, hv] using h
                  · obtain ⟨-, -, -, hind, hknd⟩ := h
                    have hres := resort_inv cfg.dir st.results
                      (setPairVal st.sort_pairs
                        ((objGet st.results w.id).getD 0)
                        w.idx_data.sorterVal)
                      hknd
                      (by rw [pairIds_setPairVal]; exact hind)
                      (by rw [pairIds_setPairVal]; exact hperm)
                    simpa [updateView, ha, hold, hnew, hsbi, hv] using hres
  | delete =>
      cases hold : objHas st.results w.id with
      | false =>
          simpa [updateView, ha, hold] using h
      | true =>
          simpa [updateView, ha, hold] using
            viewInv_removeRecord cfg st w h hold

theorem searchFinishById_inv (dir : Int) (res0 : ResMap)
    (hknd : (resKeys res0).Nodup) : viewInv dir (searchFinishById dir res0) := by
  have hids : pairIds (res0.map (fun kv => SortPair.mk kv.1 (kv.1 : Int)))
      = resKeys res0 := by
    simp [pairIds, resKeys]
  have heq : searchFinishById dir res0
      = (resortAndNotify dir
          ⟨res0, res0.map (fun kv => SortPair.mk kv.1 (kv.1 : Int))⟩).1 := rfl
  rw [heq]
  exact resort_inv dir res0 _ hknd (by rw [hids]; exact hknd)
    (by rw [hids])

/-- C2: Between updates — after the initial search completes (either the
local `_id` sort, or the external sorter path given the sorter contract)
and after every `View.update` (hence after `addRecord`, `removeRecord` and
their resort) — the view invariant holds: `sort_pairs` is sorted under the
view comparator, `results[sort_pairs[i].id] = i` for every index `i`,
`|results| = |sort_pairs|`, and neither container has duplicates. -/
theorem view_state_invariant :
    (∀ (dir : Int) (res0 : ResMap), (resKeys res0).Nodup →
      viewInv dir (searchFinishById dir res0)) ∧
    (∀ (dir : Int) (res0 : ResMap) (pairs : List SortPair),
      List.Pairwise (fun a b => pairLe dir a b = true) pairs →
      (resKeys res0).Nodup → (pairIds pairs).Nodup →
      (resKeys res0).Perm (pairIds pairs) →
      viewInv dir (searchFinishSorted res0 pairs)) ∧
    (∀ (cfg : ViewCfg) (st : ViewState) (w : WriteState),
      viewInv cfg.dir st → viewInv cfg.dir (updateView cfg st w).1) :=
  ⟨searchFinishById_inv, searchFinishSorted_inv, viewInv_updateView⟩

/-- Witness for C2 at concrete inputs. -/
theorem view_state_invariant_witness :
    viewInv 1 (searchFinishById 1 [(3, 1), (1, 1)]) ∧
    viewInv 1 (searchFinishSorted [(2, 1)] [⟨2, 5⟩]) ∧
    viewInv 1 (updateView ⟨false, 1, fun _ _ => true⟩
      ⟨[(1, 0), (2, 1)], [⟨1, 10⟩, ⟨2, 20⟩]⟩
      ⟨WriteAction.insert, 3, ⟨15⟩⟩).1 :=
  ⟨view_state_invariant.1 1 [(3, 1), (1, 1)] (by decide),
   view_state_invariant.2.1 1 [(2, 1)] [⟨2, 5⟩] (by decide) (by decide)
     (by decide) (by decide),
   view_state_invariant.2.2 ⟨false, 1, fun _ _ => true⟩
     ⟨[(1, 0), (2, 1)], [⟨1, 10⟩, ⟨2, 20⟩]⟩
     ⟨WriteAction.insert, 3, ⟨15⟩⟩ (by unfold viewInv; decide)⟩

theorem exists_of_mem_mapM {α β : Type} (f : α → Option β) :
    ∀ (l : List α) (out : List β), l.mapM f = some out →
      ∀ b ∈ out, ∃ a ∈ l, f a = some b := by
  intro l
  induction l with
  | nil =>
      intro out h b hb
      rw [List.mapM_nil] at h
      cases h
      simp at hb
  | cons a rest ih =>
      intro out h b hb
      rw [List.mapM_cons] at h
      cases hfa : f a with
      | none => rw [hfa] at h; simp at h
      | some x =>
          rw [hfa] at h
          cases hrest : rest.mapM f with
          | none => rw [hrest] at h; simp at h
          | some xs =>
              rw [hrest] at h
              simp at h
              subst h
              rcases List.mem_cons.mp hb with hb1 | hb2
              · exact ⟨a, List.mem_cons_self a rest, hb1 ▸ hfa⟩
              · obtain ⟨a', ha', hfa'⟩ := ih xs hrest b hb2
                exact ⟨a', List.mem_cons_of_mem a ha', hfa'⟩

theorem notifyVisible_only_window (fetch : FetchResult) (subs : List Sub)
    (pairs : List SortPair) (i : Nat) (evs : List (Nat × SubEvent))
    (sid : Nat) (ev : SubEvent)
    (h : viewNotifyVisible fetch subs pairs i = some evs)
    (hmem : (sid, ev) ∈ evs) :
    ∃ sub, sub ∈ subs ∧ sub.id = sid ∧ subSeesIdx sub i = true := by
  unfold viewNotifyVisible at h
  by_cases h1 : subs.isEmpty
  · rw [if_pos h1] at h
    cases h
    simp at hmem
  · rw [if_neg h1] at h
    by_cases h2 : (subs.filter (fun sub => subSeesIdx sub i)).isEmpty
    · rw [if_pos h2] at h
      cases h
      simp at hmem
    · rw [if_neg h2] at h
      cases hw : (subs.filter (fun sub => subSeesIdx sub i)).mapM
          (fun sub => codeWindowIds pairs sub.offset sub.limit) with
      | none => rw [hw] at h; cases h
      | some ws =>
          rw [hw] at h
          cases fetch with
          | err e =>
              have h' : ([] : List (Nat × SubEvent)) = evs := by
                simpa using h
              rw [← h'] at hmem
              exact absurd hmem (List.not_mem_nil _)
          | ok store =>
              obtain ⟨sub, hsub, hf⟩ := exists_of_mem_mapM _ _ _ h _ hmem
              obtain ⟨hsubs, hsee⟩ := List.mem_filter.mp hsub
              refine ⟨sub, hsubs, ?_, hsee⟩
              cases hcw : codeWindowIds pairs sub.offset sub.limit with
              | none => rw [hcw] at hf; cases hf
              | some ids =>
                  rw [hcw] at hf
                  simp [Prod.ext_iff] at hf
                  exact hf.1

/-- C3: on an `insert` write state, `View.update` follows the four-case
rule: miss-to-hit appends `(id, sort_value)` (the id itself for the `_id`
sort, `idx_data._sorters[sort_by]` otherwise), marks `results`, resorts and
notifies all; hit-to-miss splices out the pair at `results[id]`, deletes
from `results`, resorts and notifies all; a hit that stays a hit under a
non-`_id` sort compares the new sorter value with the stored pair value:
if changed, updates the pair, resorts, notifies all; if unchanged, issues a
`notifyVisible` at `results[id]`, which reaches exactly the subscribers
whose window `[offset, offset+limit)` contains that index. -/
theorem update_insert_four_cases (cfg : ViewCfg) (st : ViewState)
    (w : WriteState) (ha : w.action = WriteAction.insert) :
    (objHas st.results w.id = false → cfg.hit w.id w.idx_data = true →
      updateView cfg st w = resortAndNotify cfg.dir
        { results := objSet st.results w.id 1,
          sort_pairs := st.sort_pairs ++
            [⟨w.id, if cfg.sort_by_id then (w.id : Int)
                    else w.idx_data.sorterVal⟩] }) ∧
    (objHas st.results w.id = true → cfg.hit w.id w.idx_data = false →
      updateView cfg st w = resortAndNotify cfg.dir
        { results := objDel st.results w.id,
          sort_pairs := st.sort_pairs.eraseIdx
            ((objGet st.results w.id).getD 0) }) ∧
    (∀ idx : Nat, objHas st.results w.id = true →
      cfg.hit w.id w.idx_data = true → cfg.sort_by_id = false →
      objGet st.results w.id = some idx →
      (w.idx_data.sorterVal ≠
          (Option.map (fun p => p.val) st.sort_pairs[idx]?).getD 0 →
        updateView cfg st w = resortAndNotify cfg.dir
          { results := st.results,
            sort_pairs := setPairVal st.sort_pairs idx
              w.idx_data.sorterVal }) ∧
      (w.idx_data.sorterVal =
          (Option.map (fun p => p.val) st.sort_pairs[idx]?).getD 0 →
        updateView cfg st w = (st, Notify.visible idx))) ∧
    (∀ (dir : Int) (s : ViewState), (resortAndNotify dir s).2 = Notify.all) ∧
    (∀ (fetch : FetchResult) (subs : List Sub) (pairs : List SortPair)
        (i : Nat) (evs : List (Nat × SubEvent)) (sid : Nat) (ev : SubEvent),
      viewNotifyVisible fetch subs pairs i = some evs → (sid, ev) ∈ evs →
      ∃ sub, sub ∈ subs ∧ sub.id = sid ∧ subSeesIdx sub i = true) := by
  refine ⟨?_, ?_, ?_, fun dir s => rfl, notifyVisible_only_window⟩
  · intro h1 h2
    simp [updateView, ha, h1, h2, addRecord, sortValueOf]
  · intro h1 h2
    simp [updateView, ha, h1, h2, removeRecord]
  · intro idx h1 h2 h3 h4
    constructor
    · intro hv
      simp [updateView, ha, h1, h2, h3, h4, hv]
    · intro hv
      simp [updateView, ha, h1, h2, h3, h4, hv]

/-- Witness for C3 at concrete inputs (add case and unchanged case). -/
theorem update_insert_four_cases_witness :
    updateView ⟨false, 1, fun _ _ => true⟩
      ⟨[(1, 0), (2, 1)], [⟨1, 10⟩, ⟨2, 20⟩]⟩
      ⟨WriteAction.insert, 3, ⟨15⟩⟩
      = resortAndNotify 1
        { results := objSet [(1, 0), (2, 1)] 3 1,
          sort_pairs := [⟨1, 10⟩, ⟨2, 20⟩] ++ [⟨3, 15⟩] } ∧
    updateView ⟨false, 1, fun _ _ => true⟩
      ⟨[(1, 0), (2, 1)], [⟨1, 10⟩, ⟨2, 20⟩]⟩
      ⟨WriteAction.insert, 1, ⟨10⟩⟩
      = (⟨[(1, 0), (2, 1)], [⟨1, 10⟩, ⟨2, 20⟩]⟩, Notify.visible 0) :=
  ⟨(update_insert_four_cases _ _ _ rfl).1 (by decide) (by decide),
   ((update_insert_four_cases _ _ _ rfl).2.2.1 0 (by decide) (by decide)
     rfl (by decide)).2 (by decide)⟩

/-- C4: a write that concerns a record absent from the view and (for
inserts) not entering it leaves `results` and `sort_pairs` untouched and
triggers no notification, hence no `change` event on any subscriber. -/
theorem update_unconcerned_noop (cfg : ViewCfg) (st : ViewState)
    (w : WriteState) :
    (w.action = WriteAction.insert → objHas st.results w.id = false →
      cfg.hit w.id w.idx_data = false →
      updateView cfg st w = (st, Notify.nothing)) ∧
    (w.action = WriteAction.delete → objHas st.results w.id = false →
      updateView cfg st w = (st, Notify.nothing)) := by
  constructor
  · intro ha h1 h2
    simp [updateView, ha, h1, h2]
  · intro ha h1
    simp [updateView, ha, h1]

/-- Witness for C4 at concrete inputs. -/
theorem update_unconcerned_noop_witness :
    updateView ⟨false, 1, fun _ _ => false⟩ ⟨[], []⟩
      ⟨WriteAction.insert, 5, ⟨0⟩⟩ = (⟨[], []⟩, Notify.nothing) ∧
    updateView ⟨false, 1, fun _ _ => false⟩ ⟨[], []⟩
      ⟨WriteAction.delete, 5, ⟨0⟩⟩ = (⟨[], []⟩, Notify.nothing) :=
  ⟨(update_unconcerned_noop _ _ _).1 rfl (by decide) (by decide),
   (update_unconcerned_noop _ _ _).2 rfl (by decide)⟩

/-- C5: `SummaryView.update` triggers the summary recomputation exactly when
the state is a delete, a new record, or records a change of the tracked
field; the recomputation, on success, caches the values and broadcasts
`change {values}` to every subscriber; otherwise nothing happens. -/
theorem summary_update_rule (f : FieldId) (fetch : Except String Values)
    (st : SummaryState) (subs : List Nat) (w : SumWriteState) :
    (¬(w.action = WriteAction.delete ∨ w.new_record = true ∨
        changedHasField w.changed f = true) →
      summaryUpdate f fetch st subs w = (st, [])) ∧
    ((w.action = WriteAction.delete ∨ w.new_record = true ∨
        changedHasField w.changed f = true) →
      summaryUpdate f fetch st subs w = summaryNotifyChange fetch st subs) ∧
    (∀ vs, fetch = Except.ok vs →
      summaryNotifyChange fetch st subs
        = ({ values := some vs }, subs.map (fun k => (k, SumEvent.change vs)))) := by
  refine ⟨?_, ?_, ?_⟩
  · intro hnot
    have h1 : w.action ≠ WriteAction.delete := fun hh => hnot (Or.inl hh)
    have h2 : w.new_record = false := by
      cases hh : w.new_record
      · rfl
      · exact absurd (Or.inr (Or.inl hh)) hnot
    have h3 : changedHasField w.changed f = false := by
      cases hh : changedHasField w.changed f
      · rfl
      · exact absurd (Or.inr (Or.inr hh)) hnot
    have h4 : w.action = WriteAction.insert := by
      cases hact : w.action
      · rfl
      · exact absurd hact h1
    simp [summaryUpdate, h2, h3, h4]
  · intro hcond
    cases hnr : w.new_record with
    | true => simp [summaryUpdate, hnr]
    | false =>
        cases hact : w.action with
        | delete => simp [summaryUpdate, hnr, hact]
        | insert =>
            cases hch : changedHasField w.changed f with
            | true => simp [summaryUpdate, hnr, hact, hch]
            | false =>
                rcases hcond with h | h | h
                · rw [hact] at h
                  exact absurd h (by simp)
                · rw [hnr] at h
                  exact absurd h (by simp)
                · rw [hch] at h
                  exact absurd h (by simp)
  · intro vs hvs
    simp [summaryNotifyChange, hvs]

/-- Witness for C5 at concrete inputs. -/
theorem summary_update_rule_witness :
    summaryUpdate 1 (Except.ok [("open", 2)]) ⟨none⟩ [4]
      ⟨WriteAction.insert, false, some [2]⟩ = (⟨none⟩, []) ∧
    summaryUpdate 1 (Except.ok [("open", 2)]) ⟨none⟩ [4]
      ⟨WriteAction.insert, false, some [1]⟩
      = summaryNotifyChange (Except.ok [("open", 2)]) ⟨none⟩ [4] ∧
    summaryNotifyChange (Except.ok [("open", 2)]) ⟨none⟩ [4]
      = (⟨some [("open", 2)]⟩, [(4, SumEvent.change [("open", 2)])]) :=
  ⟨(summary_update_rule 1 (Except.ok [("open", 2)]) ⟨none⟩ [4]
      ⟨WriteAction.insert, false, some [2]⟩).1 (by decide),
   (summary_update_rule 1 (Except.ok [("open", 2)]) ⟨none⟩ [4]
      ⟨WriteAction.insert, false, some [1]⟩).2.1 (by decide),
   (summary_update_rule 1 (Except.ok [("open", 2)]) ⟨none⟩ [4]
      ⟨WriteAction.insert, false, some [1]⟩).2.2 [("open", 2)] rfl⟩

/-- C6: if the initial `searchRecords` fails, or the subsequent external
`sortRecords` fails on a non-`_id` sort, the view broadcasts `error` to
every attached subscriber, then broadcasts `destroy` to them and
deregisters itself from the ViewManager. -/
theorem search_failure_error_destroy (dir : Int) (subs : List Nat)
    (sortRes : ResMap → Except String (List SortPair)) (e : String) :
    (∀ sbi : Bool, runSearch dir sbi subs (Except.error e) sortRes
      = { state := none,
          events := broadcastTo subs
              (SubEvent.error ("Initial search failed: " ++ e))
            ++ broadcastTo subs SubEvent.destroy,
          notify := Notify.nothing, removed := true }) ∧
    (∀ res0 : ResMap, sortRes res0 = Except.error e →
      runSearch dir false subs (Except.ok res0) sortRes
      = { state := none,
          events := broadcastTo subs
              (SubEvent.error ("Initial search failed: " ++ e))
            ++ broadcastTo subs SubEvent.destroy,
          notify := Notify.nothing, removed := true }) := by
  constructor
  · intro sbi
    rfl
  · intro res0 h
    simp [runSearch, h]

/-- Witness for C6 at concrete inputs. -/
theorem search_failure_error_destroy_witness :
    runSearch 1 false [7] (Except.ok [(1, 1)]) (fun _ => Except.error "bad")
      = { state := none,
          events := broadcastTo [7]
              (SubEvent.error ("Initial search failed: " ++ "bad"))
            ++ broadcastTo [7] SubEvent.destroy,
          notify := Notify.nothing, removed := true } :=
  (search_failure_error_destroy 1 [7] (fun _ => Except.error "bad") "bad").2
    [(1, 1)] rfl

/-- C7: `unsubscribe` (which calls `View.removeSubscriber`) removes the
subscriber from the view's set, and the view destroys itself — and is
deregistered from the ViewManager — exactly when the set becomes empty. -/
theorem unsubscribe_destroy_rule (v : ViewHandle) (sid : Nat)
    (hnd : v.subs.Nodup) :
    (removeSubscriber v sid).1.subs = v.subs.erase sid ∧
    sid ∉ (removeSubscriber v sid).1.subs ∧
    ((removeSubscriber v sid).2.2 = true ↔
      (removeSubscriber v sid).1.subs = []) := by
  have hsubs : (removeSubscriber v sid).1.subs = v.subs.erase sid := by
    unfold removeSubscriber
    by_cases h : (v.subs.erase sid).isEmpty
    · simp [h]
    · simp [h]
  refine ⟨hsubs, ?_, ?_⟩
  · rw [hsubs]
    exact hnd.not_mem_erase
  · rw [hsubs]
    unfold removeSubscriber
    by_cases h : (v.subs.erase sid).isEmpty
    · simp [h, List.isEmpty_iff.mp h]
    · rw [if_neg h]
      constructor
      · intro hh
        exact absurd hh (by simp)
      · intro hh
        rw [hh] at h
        exact absurd rfl h

/-- Witness for C7 at concrete inputs. -/
theorem unsubscribe_destroy_rule_witness :
    (removeSubscriber ⟨[4], none⟩ 4).1.subs = List.erase [4] 4 ∧
    4 ∉ (removeSubscriber ⟨[4], none⟩ 4).1.subs ∧
    ((removeSubscriber ⟨[4], none⟩ 4).2.2 = true ↔
      (removeSubscriber ⟨[4], none⟩ 4).1.subs = []) :=
  unsubscribe_destroy_rule ⟨[4], none⟩ 4 (by decide)

/-- C8: the Subscriber constructor installs a no-op default listener on the
`error` channel, so emitting `error` is absorbed (never an unhandled-`error`
crash) no matter which client listeners are attached later. -/
theorem error_channel_default_listener :
    subscriberConstruct.errorListeners = [Handler.noop] ∧
    (∀ hs : List Handler,
      emitErrorAbsorbed (addErrorListeners subscriberConstruct hs) = true) := by
  constructor
  · rfl
  · intro hs
    simp [emitErrorAbsorbed, addErrorListeners, subscriberConstruct]

/-- C9: when the bulk record load fails inside `View.notifyChange` or
`View.notifyVisible`, no subscriber receives any event (the error is only
logged); when it fails inside `Subscriber.notifyChange`, that subscriber
receives exactly an `error` event and no `change` event. -/
theorem fetch_failure_event_rule :
    (∀ (e : String) (subs : List Sub) (pairs : List SortPair)
        (w : List (List RecordId)),
      subs.mapM (fun sub => codeWindowIds pairs sub.offset sub.limit)
        = some w →
      viewNotifyChange (FetchResult.err e) subs pairs = some []) ∧
    (∀ (e : String) (subs : List Sub) (pairs : List SortPair) (i : Nat)
        (w : List (List RecordId)),
      (subs.filter (fun sub => subSeesIdx sub i)).mapM
        (fun sub => codeWindowIds pairs sub.offset sub.limit) = some w →
      viewNotifyVisible (FetchResult.err e) subs pairs i = some []) ∧
    (∀ (e : String) (pairs : List SortPair) (offset limit : Nat)
        (ids : List RecordId),
      codeWindowIds pairs offset limit = some ids →
      subNotifyChange (FetchResult.err e) pairs offset limit
        = some [SubEvent.error ("Failed to fetch records: " ++ e)]) := by
  refine ⟨?_, ?_, ?_⟩
  · intro e subs pairs w hw
    unfold viewNotifyChange
    by_cases h1 : subs.isEmpty
    · simp [h1]
    · rw [if_neg h1, hw]
  · intro e subs pairs i w hw
    unfold viewNotifyVisible
    by_cases h1 : subs.isEmpty
    · simp [h1]
    · by_cases h2 : (subs.filter (fun sub => subSeesIdx sub i)).isEmpty
      · simp [h1, h2]
      · rw [if_neg h1, if_neg h2, hw]
  · intro e pairs offset limit ids hids
    simp [subNotifyChange, hids]

/-- Witness for C9 at concrete inputs. -/
theorem fetch_failure_event_rule_witness :
    viewNotifyChange (FetchResult.err "disk") [⟨1, 0, 1⟩] [⟨5, 0⟩]
      = some [] ∧
    viewNotifyVisible (FetchResult.err "disk") [⟨1, 0, 1⟩] [⟨5, 0⟩] 0
      = some [] ∧
    subNotifyChange (FetchResult.err "disk") [⟨5, 0⟩] 0 1
      = some [SubEvent.error ("Failed to fetch records: " ++ "disk")] :=
  ⟨fetch_failure_event_rule.1 "disk" [⟨1, 0, 1⟩] [⟨5, 0⟩] [[5]] (by decide),
   fetch_failure_event_rule.2.1 "disk" [⟨1, 0, 1⟩] [⟨5, 0⟩] 0 [[5]]
     (by decide),
   fetch_failure_event_rule.2.2 "disk" [⟨5, 0⟩] 0 1 [5] (by decide)⟩

/-- C10: `addSubscriber` registers the subscriber on the view and fires an
immediate per-subscriber `notifyChange` exactly when the initial search has
already completed (`sort_pairs` non-null); when the initial search
completes later, it is the search that notifies all subscribers. -/
theorem add_subscriber_rule (v : ViewHandle) (sid : Nat) :
    sid ∈ (addSubscriber v sid).1.subs ∧
    ((addSubscriber v sid).2 = true ↔ v.vstate.isSome = true) ∧
    (∀ (dir : Int) (sbi : Bool) (subs : List Nat)
        (searchRes : Except String ResMap)
        (sortRes : ResMap → Except String (List SortPair)) (st' : ViewState),
      (runSearch dir sbi subs searchRes sortRes).state = some st' →
      (runSearch dir sbi subs searchRes sortRes).notify = Notify.all) := by
  refine ⟨?_, Iff.rfl, ?_⟩
  · by_cases h : sid ∈ v.subs
    · simp [addSubscriber, addSubKey, h]
    · simp [addSubscriber, addSubKey, h]
  · intro dir sbi subs searchRes sortRes st' h
    cases searchRes with
    | error e => simp [runSearch] at h
    | ok res0 =>
        cases sbi with
        | true => rfl
        | false =>
            cases hs : sortRes res0 with
            | error e => simp [runSearch, hs] at h
            | ok pairs => simp [runSearch, hs]

/-- Witness for C10 at concrete inputs. -/
theorem add_subscriber_rule_witness :
    (3 ∈ (addSubscriber ⟨[], none⟩ 3).1.subs ∧
      ((addSubscriber ⟨[], none⟩ 3).2 = true ↔
        (none : Option ViewState).isSome = true)) ∧
    (runSearch 1 true [] (Except.ok []) (fun _ => Except.ok [])).notify
      = Notify.all :=
  ⟨⟨(add_subscriber_rule ⟨[], none⟩ 3).1,
    (add_subscriber_rule ⟨[], none⟩ 3).2.1⟩,
   (add_subscriber_rule ⟨[], none⟩ 3).2.2 1 true [] (Except.ok [])
     (fun _ => Except.ok []) (searchFinishById 1 []) rfl⟩

theorem range_mapM_window (pairs : List SortPair) (off : Nat) :
    ∀ cnt : Nat, off + cnt ≤ pairs.length →
      (List.range cnt).mapM
          (fun idx => (pairs.get? (idx + off)).map (fun p => p.id))
        = some (((pairs.drop off).take cnt).map (fun p => p.id)) := by
  intro cnt
  induction cnt with
  | zero =>
      intro h
      rfl
  | succ n ih =>
      intro h
      have hn : off + n ≤ pairs.length := by omega
      have hlt : n + off < pairs.length := by omega
      have hget' : pairs[n + off]? = some (pairs[n + off]) :=
        List.getElem?_eq_getElem hlt
      have hone : (([n] : List Nat)).mapM
          (fun idx => (pairs.get? (idx + off)).map (fun p => p.id))
          = some [(pairs[n + off]).id] := by
        simp [List.mapM.loop, List.get?_eq_getElem?, hget']
      have hdropn : (pairs.drop off)[n]? = some (pairs[n + off]) := by
        rw [List.getElem?_drop]
        have hcomm : off + n = n + off := Nat.add_comm off n
        rw [hcomm]
        exact hget'
      have hB : ((pairs.drop off).take (n + 1)).map (fun p => p.id)
          = ((pairs.drop off).take n).map (fun p => p.id)
            ++ [(pairs[n + off]).id] := by
        rw [List.take_succ, hdropn]
        simp
      rw [List.range_succ, List.mapM_append, ih hn, hone, hB]
      rfl

/-- When the subscriber window fits inside `sort_pairs` — in particular
whenever `offset = 0` or `offset + limit <= len` — the ids gathered by the
notification loop are exactly the slice the specification prescribes. -/
theorem codeWindowIds_matches_spec_of_fits (pairs : List SortPair)
    (offset limit : Nat)
    (h : offset = 0 ∨ offset + limit ≤ pairs.length) :
    codeWindowIds pairs offset limit
      = some (specWindowIds pairs offset limit) := by
  unfold codeWindowIds specWindowIds
  have hc : offset + min limit pairs.length ≤ pairs.length := by
    rcases h with h | h
    · have := Nat.min_le_right limit pairs.length
      omega
    · have := Nat.min_le_left limit pairs.length
      omega
  rw [range_mapM_window pairs offset (min limit pairs.length) hc]
  have htake : (pairs.drop offset).take (min limit pairs.length)
      = (pairs.drop offset).take limit := by
    rcases Nat.le_total limit pairs.length with hl | hl
    · rw [Nat.min_eq_left hl]
    · rw [Nat.min_eq_right hl]
      rw [List.take_of_length_le (by rw [List.length_drop]; omega),
        List.take_of_length_le (by rw [List.length_drop]; omega)]
  rw [htake]

/-- C1 (refuted at an out-of-range window): with `sort_pairs = [[1,10],[2,20]]`
(length 2) and a subscriber window `offset = 1, limit = 2`, the loop bound
`min(limit, len) = 2` makes the code read `sort_pairs[2]` — a TypeError in
JS (`undefined[0]`) — so no `change` event is delivered by any of the three
notification paths, whereas the claimed slice `sort_pairs[1 : min(3,2)]`
is the well-defined `[2]`; with an in-range window (`offset = 1, limit = 2`
over three pairs) the code does produce exactly the claimed slice. -/
theorem change_slice_window_overrun :
    specWindowIds [⟨1, 10⟩, ⟨2, 20⟩] 1 2 = [2] ∧
    codeWindowIds [⟨1, 10⟩, ⟨2, 20⟩] 1 2 = none ∧
    viewNotifyChange (FetchResult.ok (fun _ => "rec")) [⟨9, 1, 2⟩]
      [⟨1, 10⟩, ⟨2, 20⟩] = none ∧
    viewNotifyVisible (FetchResult.ok (fun _ => "rec")) [⟨9, 1, 2⟩]
      [⟨1, 10⟩, ⟨2, 20⟩] 1 = none ∧
    subNotifyChange (FetchResult.ok (fun _ => "rec")) [⟨1, 10⟩, ⟨2, 20⟩] 1 2
      = none ∧
    codeWindowIds [⟨1, 10⟩, ⟨2, 20⟩, ⟨3, 30⟩] 1 2
      = some (specWindowIds [⟨1, 10⟩, ⟨2, 20⟩, ⟨3, 30⟩] 1 2) :=
  ⟨rfl, rfl, rfl, rfl, rfl, rfl⟩

end Unbase
